import Mathlib

/-!
Verification of the Novelreader repository (novel_reader.py).

The development shallowly embeds the text-parsing routine
`parse_novel_file`, the library scan `load_novels`, the chapter
navigation (`prev_chapter` / `next_chapter` / `load_chapter`), and the
settings / reading-progress persistence layer
(`load_settings` / `save_settings` / `load_reading_progress` /
`save_reading_progress`).

Strings are modelled as `List Char` internally (Lean's `String` is a
wrapper around `List Char`); Python's `str.split('\n')`, `str.strip()`,
`str.startswith` and `str.replace` are re-implemented with their exact
semantics on the claims' input space (ASCII whitespace for the
whitespace class).  Python floats are modelled by their shortest decimal
representation (integer part plus a non-empty list of fraction digits),
which is what `json.dump` writes and `json.load` reads back.  The JSON
documents written by `json.dump(..., ensure_ascii=False, indent=2)` are
reproduced character for character for the shapes the program writes
(a flat settings object and the two-level progress mapping, for strings
that need no escaping); the readers are parsers over the document text
that fail (returning `none`) on anything not of that shape, mirroring
the `try/except` fallback to the empty document in the source.
-/

namespace NovelReader

/-! ## Basic string helpers (Python `str` semantics) -/

/-- Python `content.split('\n')`: splitting on a separator keeps empty
pieces, and the split of the empty string is `[""]` (never `[]`). -/
def splitNl : List Char → List (List Char)
  | [] => [[]]
  | c :: cs =>
    if c = '\n' then [] :: splitNl cs
    else
      match splitNl cs with
      | [] => [[c]]
      | l :: ls => (c :: l) :: ls

/-- Python `line.strip()`: drop leading and trailing whitespace. -/
def trimL (cs : List Char) : List Char :=
  ((cs.dropWhile Char.isWhitespace).reverse.dropWhile Char.isWhitespace).reverse

/-- Fuel-driven worker for `replaceAll` (fuel bounds the number of
consumed characters so the function is structurally recursive). -/
def replaceAllAux (pat : List Char) : Nat → List Char → List Char
  | _, [] => []
  | 0, cs => cs
  | f + 1, c :: cs =>
    if pat.isPrefixOf (c :: cs) then replaceAllAux pat f ((c :: cs).drop pat.length)
    else c :: replaceAllAux pat f cs

/-- Python `s.replace(pat, '')` for a non-empty pattern: remove every
leftmost non-overlapping occurrence of `pat`. -/
def replaceAll (pat cs : List Char) : List Char :=
  replaceAllAux pat cs.length cs

/-! ## The novel parser (`parse_novel_file`, novel_reader.py lines 259-306) -/

structure Chapter where
  title : String
  content : String
  number : Nat
  deriving Repr, DecidableEq

structure Novel where
  title : String
  author : String
  chapters : List Chapter
  content : String
  deriving Repr, DecidableEq

/-- The literal author label `作者：`. -/
def authorLabel : List Char := ['作', '者', '：']

/-- The author scan: `for line in lines[:10]: if line.startswith('作者：'):
novel['author'] = line.replace('作者：', '').strip(); break`.  The caller
passes `lines.take 10`. -/
def findAuthor : List (List Char) → List Char
  | [] => []
  | l :: ls =>
    if authorLabel.isPrefixOf l then trimL (replaceAll authorLabel l)
    else findAuthor ls

/-- Decimal value of a digit character. -/
def digitVal (c : Char) : Nat := c.toNat - 48

/-- MSB-first decimal value of a digit string, as `int()` computes it. -/
def digitsValC (ds : List Char) : Nat :=
  ds.foldl (fun a c => 10 * a + digitVal c) 0

/-- The heading recogniser `re.compile(r'^第(\d+)章\s*(.+)$')` applied with
`re.match` to the stripped line: the line must start with `第`, followed by a
non-empty run of digits (captured as the chapter number), then `章`, then
optional whitespace and at least one further character.  Only group 1 (the
number) is used by the program. -/
def matchChapterL (cs : List Char) : Option Nat :=
  if cs.head? = some '第' then
    let ds := cs.tail.takeWhile Char.isDigit
    let after := cs.tail.dropWhile Char.isDigit
    if ds.isEmpty then none
    else if after.head? = some '章' then
      if (after.tail.dropWhile Char.isWhitespace).isEmpty then none
      else some (digitsValC ds)
    else none
  else none

/-- Accumulator of the chapter loop: the chapters already closed, and the
currently open chapter (if any). -/
structure ChapterAcc where
  closed : List Chapter
  current : Option Chapter
  deriving Repr, DecidableEq

/-- One iteration of `for line in lines:` in the chapter loop. -/
def chapStep (acc : ChapterAcc) (line : List Char) : ChapterAcc :=
  match matchChapterL (trimL line) with
  | some n =>
    { closed := acc.closed ++ acc.current.toList
      current := some { title := (trimL line).asString, content := "", number := n } }
  | none =>
    match acc.current with
    | some ch =>
      { acc with
        current := some { ch with content := ch.content ++ line.asString ++ "\n" } }
    | none => acc

/-- The chapter loop over all lines, with the final open chapter appended. -/
def parseChapters (lines : List (List Char)) : List Chapter :=
  let acc := lines.foldl chapStep { closed := [], current := none }
  acc.closed ++ acc.current.toList

/-- The body of `parse_novel_file` after a successful decode: build the novel record
from the decoded text. -/
def parseNovel (content : String) : Novel :=
  let lines := splitNl content.data
  { title :=
      match lines with
      | [] => "未知标题"
      | l :: _ => l.asString
    author := (findAuthor (lines.take 10)).asString
    chapters := parseChapters lines
    content := content }

/-! ## Decoding and the library scan (`load_novels`, lines 232-257) -/

/-- A file on disk, abstracted by the outcome of decoding its bytes with
each of the two attempted encodings (`none` = `UnicodeDecodeError`). -/
structure NovelFile where
  utf8 : Option String
  gbk : Option String
  deriving Repr, DecidableEq

/-- Decoding in `parse_novel_file`: try utf-8, fall back to gbk on decode failure,
return `None` when both fail. -/
def parse_novel_file (f : NovelFile) : Option Novel :=
  match f.utf8 with
  | some content => some (parseNovel content)
  | none =>
    match f.gbk with
    | some content => some (parseNovel content)
    | none => none

/-- The scan loop of `load_novels`: each file is parsed independently; a
file whose parse yields no result is skipped and the scan continues. -/
def load_novels (files : List (String × NovelFile)) : List (String × Novel) :=
  files.foldl
    (fun acc file =>
      match parse_novel_file file.2 with
      | some novel => acc ++ [(file.1, novel)]
      | none => acc)
    []

/-! ## Chapter navigation (lines 342-345 and 387-395) -/

/-- The navigation-relevant state: the selected novel's chapters (if a
novel is selected) and `current_chapter`, a Python `int`. -/
structure ReaderState where
  novel : Option (List Chapter)
  current : Int
  deriving Repr, DecidableEq

/-- Function `load_chapter`: ignore the request unless a novel is selected and the
index is within `[0, len(chapters) - 1]`. -/
def load_chapter (idx : Int) (s : ReaderState) : ReaderState :=
  match s.novel with
  | none => s
  | some chs =>
    if idx < 0 ∨ (chs.length : Int) ≤ idx then s
    else { s with current := idx }

/-- Function `prev_chapter`: step back one chapter when the current index is
positive. -/
def prev_chapter (s : ReaderState) : ReaderState :=
  if 0 < s.current then load_chapter (s.current - 1) s else s

/-- Function `next_chapter`: step forward one chapter when a novel is selected and
the current index is below the last one. -/
def next_chapter (s : ReaderState) : ReaderState :=
  match s.novel with
  | none => s
  | some chs =>
    if s.current < (chs.length : Int) - 1 then load_chapter (s.current + 1) s else s

/-! ## Decimal printing and parsing (the JSON number format)

`json.dump` writes a Python `int` as its optional-sign decimal digits and a
Python `float` as its shortest decimal representation (integer part, `.`,
one or more fraction digits — the only form floats in the settings range
take).  Floats are therefore modelled by that decimal form (`Dec`). -/

/-- The character of a decimal digit value. -/
def digitChar (d : Nat) : Char := Char.ofNat (48 + d)

/-- Least-significant-first decimal digits of `n`; the first argument is
fuel (any fuel `≥ n` gives all digits). -/
def natDigitsAux : Nat → Nat → List Nat
  | _, 0 => []
  | 0, _ + 1 => []
  | f + 1, n + 1 => (n + 1) % 10 :: natDigitsAux f ((n + 1) / 10)

/-- Most-significant-first decimal digit values of `n`, `0 ↦ [0]`. -/
def digitsMSB (n : Nat) : List Nat :=
  if n = 0 then [0] else (natDigitsAux n n).reverse

/-- Decimal representation of a natural number, as `repr` prints it. -/
def natReprL (n : Nat) : List Char := (digitsMSB n).map digitChar

/-- Decimal representation of a Python `int`. -/
def intReprL (i : Int) : List Char :=
  if i < 0 then '-' :: natReprL i.natAbs else natReprL i.natAbs

/-- MSB-first value of a list of digit values. -/
def digitsValN (ds : List Nat) : Nat := ds.foldl (fun a d => 10 * a + d) 0

/-- A Python float, modelled by its shortest decimal representation:
integer part and fraction digits (MSB first).  `repr` of a float in
`[1.0, 2.0]` always has at least one fraction digit. -/
structure Dec where
  ip : Nat
  frac : List Nat
  deriving Repr, DecidableEq

/-- Well-formedness of the decimal model: at least one fraction digit and
every fraction digit below 10. -/
def Dec.WF (d : Dec) : Prop := d.frac ≠ [] ∧ ∀ x ∈ d.frac, x < 10

instance (d : Dec) : Decidable d.WF := by unfold Dec.WF; infer_instance

/-- Rational value of the decimal. -/
def Dec.val (d : Dec) : ℚ :=
  (d.ip : ℚ) + (digitsValN d.frac : ℚ) / (10 : ℚ) ^ d.frac.length

/-- Decimal text of the modelled float, as `repr` prints it. -/
def decReprL (d : Dec) : List Char :=
  natReprL d.ip ++ '.' :: d.frac.map digitChar

/-! ## Generic document-parsing helpers (the `json.load` side) -/

/-- Drop leading whitespace. -/
def skipWs (cs : List Char) : List Char := cs.dropWhile Char.isWhitespace

/-- Expect a literal token after optional whitespace. -/
def expectTok (tok cs : List Char) : Option (List Char) :=
  let cs := skipWs cs
  if tok.isPrefixOf cs then some (cs.drop tok.length) else none

/-- Read a non-empty run of digits (no leading whitespace allowed). -/
def parseNatNoWs (cs : List Char) : Option (Nat × List Char) :=
  let ds := cs.takeWhile Char.isDigit
  if ds.isEmpty then none else some (digitsValC ds, cs.dropWhile Char.isDigit)

/-- Read a natural number after optional whitespace. -/
def parseNatL (cs : List Char) : Option (Nat × List Char) :=
  parseNatNoWs (skipWs cs)

/-- Read a JSON integer (optional minus sign) after optional whitespace. -/
def parseIntL (cs : List Char) : Option (Int × List Char) :=
  let cs' := skipWs cs
  if cs'.head? = some '-' then (parseNatNoWs cs'.tail).map fun p => (-(p.1 : Int), p.2)
  else (parseNatNoWs cs').map fun p => ((p.1 : Int), p.2)

/-- Read a non-empty run of fraction digits as digit values. -/
def parseFracL (cs : List Char) : Option (List Nat × List Char) :=
  let ds := cs.takeWhile Char.isDigit
  if ds.isEmpty then none
  else some (ds.map digitVal, cs.dropWhile Char.isDigit)

/-- Read a JSON number of the float form `<int>.<digits>`. -/
def parseDecL (cs : List Char) : Option (Dec × List Char) := do
  let (ip, cs) ← parseNatL cs
  if cs.head? = some '.' then
    let (fr, cs2) ← parseFracL cs.tail
    pure (⟨ip, fr⟩, cs2)
  else none

/-- Read the body of a JSON string up to the closing quote (the opening
quote has been consumed; no escape sequences, matching the documents the
program writes for strings that need no escaping). -/
def parseJStr (cs : List Char) : Option (String × List Char) :=
  let s := cs.takeWhile fun c => ¬c = '"'
  let rest := cs.dropWhile fun c => ¬c = '"'
  if rest.head? = some '"' then some (s.asString, rest.tail) else none

/-! ## The settings store (`load_settings` / `save_settings`, lines 448-462)

The in-memory settings relevant to the claims are the two fields the
program writes: `font_size` (a Python `int`) and `line_spacing` (a Python
`float`).  The empty settings dictionary (the fallback of `load_settings`)
is modelled as `none`. -/

structure SettingsV where
  font_size : Int
  line_spacing : Dec
  deriving Repr, DecidableEq

/-- The exact text `json.dump(settings, f, ensure_ascii=False, indent=2)`
writes for the two-field settings dictionary. -/
def dumpSettings (s : SettingsV) : List Char :=
  "\x7b\n  \"font_size\": ".data ++ intReprL s.font_size ++
    ",\n  \"line_spacing\": ".data ++ decReprL s.line_spacing ++ "\n\x7d".data

/-- Parse a settings document of the shape the program writes. -/
def parseSettingsL (cs : List Char) : Option SettingsV := do
  let cs ← expectTok ['\x7b'] cs
  let cs ← expectTok "\"font_size\"".data cs
  let cs ← expectTok [':'] cs
  let (fs, cs) ← parseIntL cs
  let cs ← expectTok [','] cs
  let cs ← expectTok "\"line_spacing\"".data cs
  let cs ← expectTok [':'] cs
  let (ls, cs) ← parseDecL cs
  let cs ← expectTok ['\x7d'] cs
  if (skipWs cs).isEmpty then pure ⟨fs, ls⟩ else none

/-- Function `save_settings`: the document written to `settings.json`. -/
def save_settings (s : SettingsV) : String := (dumpSettings s).asString

/-- Function `load_settings`: read and parse `settings.json`; on any failure
(missing or unreadable file — `doc = none` — or malformed content) return
the empty dictionary (`none`). -/
def load_settings (doc : Option String) : Option SettingsV :=
  match doc with
  | none => none
  | some d => parseSettingsL d.data

/-! ## The progress store (`load_reading_progress` /
`save_reading_progress`, lines 464-486)

`reading_progress` is a Python dict mapping a novel title to an entry
`{'chapter': int, 'timestamp': str}`; it is modelled as an association
list in insertion order (Python dicts preserve insertion order, and
assignment to an existing key updates it in place). -/

structure PEntry where
  chapter : Int
  timestamp : String
  deriving Repr, DecidableEq

/-- Python `m[k] = v`: update the existing entry in place, else append. -/
def dictSet (m : List (String × PEntry)) (k : String) (v : PEntry) :
    List (String × PEntry) :=
  if m.any (fun p => p.1 = k) then
    m.map fun p => if p.1 = k then (k, v) else p
  else m ++ [(k, v)]

/-- First-match association lookup. -/
def alookup : List (String × PEntry) → String → Option PEntry
  | [], _ => none
  | (k, v) :: m, key => if k = key then some v else alookup m key

/-- The text `json.dump(..., ensure_ascii=False, indent=2)` writes for one
progress entry (strings that need no escaping). -/
def dumpEntry (k : String) (e : PEntry) : List Char :=
  "  \"".data ++ k.data ++ "\": \x7b\n    \"chapter\": ".data ++
    intReprL e.chapter ++ ",\n    \"timestamp\": \"".data ++
    e.timestamp.data ++ "\"\n  \x7d".data

/-- The progress entries joined with `",\n"`. -/
def dumpEntries : List (String × PEntry) → List Char
  | [] => []
  | [(k, e)] => dumpEntry k e
  | (k, e) :: rest => dumpEntry k e ++ ',' :: '\n' :: dumpEntries rest

/-- The whole progress document. -/
def dumpProgress (m : List (String × PEntry)) : List Char :=
  match m with
  | [] => "\x7b\x7d".data
  | _ => '\x7b' :: '\n' :: (dumpEntries m ++ '\n' :: ['\x7d'])

/-- Parse one `"title": {"chapter": c, "timestamp": "t"}` entry. -/
def parsePEntry (cs : List Char) : Option ((String × PEntry) × List Char) := do
  let cs ← expectTok ['"'] cs
  let (k, cs) ← parseJStr cs
  let cs ← expectTok [':'] cs
  let cs ← expectTok ['\x7b'] cs
  let cs ← expectTok "\"chapter\"".data cs
  let cs ← expectTok [':'] cs
  let (c, cs) ← parseIntL cs
  let cs ← expectTok [','] cs
  let cs ← expectTok "\"timestamp\"".data cs
  let cs ← expectTok [':'] cs
  let cs ← expectTok ['"'] cs
  let (t, cs) ← parseJStr cs
  let cs ← expectTok ['\x7d'] cs
  pure ((k, ⟨c, t⟩), cs)

/-- Parse a comma-separated sequence of entries followed by the closing
brace; the fuel bounds the number of entries. -/
def parseEntriesAux : Nat → List Char →
    Option (List (String × PEntry) × List Char)
  | fuel, cs => do
    let (kv, cs) ← parsePEntry cs
    let cs' := skipWs cs
    if cs'.head? = some ',' then
      match fuel with
      | 0 => none
      | f + 1 => do
        let (m, cs'') ← parseEntriesAux f cs'.tail
        pure (kv :: m, cs'')
    else if cs'.head? = some '\x7d' then pure ([kv], cs'.tail)
    else none

/-- Parse a progress document of the shape the program writes. -/
def parseProgressL (cs : List Char) : Option (List (String × PEntry)) := do
  let cs ← expectTok ['\x7b'] cs
  if (skipWs cs).head? = some '\x7d' then
    if (skipWs (skipWs cs).tail).isEmpty then pure [] else none
  else do
    let (m, rest) ← parseEntriesAux cs.length cs
    if (skipWs rest).isEmpty then pure m else none

/-- Function `load_reading_progress`: read and parse `reading_progress.json`; on
any failure return the empty mapping. -/
def load_reading_progress (doc : Option String) : List (String × PEntry) :=
  match doc with
  | none => []
  | some d => (parseProgressL d.data).getD []

/-- Function `save_reading_progress` (with a novel selected): update the in-memory
mapping at the current novel's title and rewrite the whole mapping to
`reading_progress.json`.  Returns the new in-memory mapping and the
document written. -/
def save_reading_progress (title : String) (chap : Int) (ts : String)
    (m : List (String × PEntry)) : List (String × PEntry) × String :=
  let m' := dictSet m title ⟨chap, ts⟩
  (m', (dumpProgress m').asString)

/-- A string that needs no JSON escaping in the documents the program
writes (no quote, no backslash, no control character). -/
def PlainStr (s : String) : Prop :=
  ∀ c ∈ s.data, ¬c = '"' ∧ ¬c = '\\' ∧ 32 ≤ c.toNat

instance (s : String) : Decidable (PlainStr s) := by
  unfold PlainStr; infer_instance

/-- A progress mapping whose titles and timestamps need no JSON
escaping. -/
def ProgressWF (m : List (String × PEntry)) : Prop :=
  ∀ p ∈ m, PlainStr p.1 ∧ PlainStr p.2.timestamp

instance (m : List (String × PEntry)) : Decidable (ProgressWF m) := by
  unfold ProgressWF; infer_instance

/-- Least-significant-first value of a list of digit values (a proof
helper for the decimal round trip). -/
def ofLE (ds : List Nat) : Nat := ds.foldr (fun d a => d + 10 * a) 0

end NovelReader

/-! ## Supporting lemmas -/

namespace NovelReader


lemma ofLE_cons (d : Nat) (l : List Nat) : ofLE (d :: l) = d + 10 * ofLE l := rfl

lemma dropWhile_append_all {p : Char → Bool} {l r : List Char}
    (h : ∀ c ∈ l, p c = true) :
    (l ++ r).dropWhile p = r.dropWhile p := by
  induction l with
  | nil => rfl
  | cons c t ih =>
    simp only [List.cons_append, List.dropWhile_cons, h c (by simp), if_true]
    exact ih fun x hx => h x (by simp [hx])

lemma takeWhile_append_all {p : Char → Bool} {l r : List Char}
    (h : ∀ c ∈ l, p c = true) :
    (l ++ r).takeWhile p = l ++ r.takeWhile p := by
  induction l with
  | nil => rfl
  | cons c t ih =>
    simp only [List.cons_append, List.takeWhile_cons, h c (by simp), if_true]
    simp only [ih fun x hx => h x (by simp [hx])]

lemma head_fail_stop {p : Char → Bool} {r : List Char}
    (h : ∀ c, r.head? = some c → p c = false) :
    r.takeWhile p = [] ∧ r.dropWhile p = r := by
  cases r with
  | nil => exact ⟨rfl, rfl⟩
  | cons c t =>
    have hc := h c rfl
    constructor
    · simp [List.takeWhile_cons, hc]
    · simp [List.dropWhile_cons, hc]

lemma takeWhile_exact {p : Char → Bool} {l r : List Char}
    (hl : ∀ c ∈ l, p c = true) (hr : ∀ c, r.head? = some c → p c = false) :
    (l ++ r).takeWhile p = l ∧ (l ++ r).dropWhile p = r := by
  obtain ⟨h1, h2⟩ := head_fail_stop hr
  exact ⟨by rw [takeWhile_append_all hl, h1, List.append_nil],
         by rw [dropWhile_append_all hl, h2]⟩

lemma digitChar_spec : ∀ d, d < 10 →
    (digitChar d).isDigit = true ∧ (digitChar d).isWhitespace = false ∧
    digitVal (digitChar d) = d ∧ ¬digitChar d = '-' ∧ ¬digitChar d = '"' ∧
    ¬digitChar d = '.' ∧ ¬digitChar d = '\x7d' := by decide

lemma natDigitsAux_lt : ∀ f n d, d ∈ natDigitsAux f n → d < 10 := by
  intro f
  induction f with
  | zero => intro n d h; cases n <;> simp [natDigitsAux] at h
  | succ f ih =>
    intro n d h
    cases n with
    | zero => simp [natDigitsAux] at h
    | succ m =>
      simp only [natDigitsAux, List.mem_cons] at h
      rcases h with h | h
      · subst h; exact Nat.mod_lt _ (by norm_num)
      · exact ih _ _ h

lemma ofLE_natDigitsAux : ∀ f n, n ≤ f → ofLE (natDigitsAux f n) = n := by
  intro f
  induction f with
  | zero => intro n h; have : n = 0 := Nat.le_zero.mp h; subst this; rfl
  | succ f ih =>
    intro n h
    cases n with
    | zero => rfl
    | succ m =>
      have hdiv : (m + 1) / 10 ≤ f := by
        have h1 : (m + 1) / 10 < m + 1 := Nat.div_lt_self (Nat.succ_pos m) (by norm_num)
        omega
      show ofLE ((m + 1) % 10 :: natDigitsAux f ((m + 1) / 10)) = m + 1
      rw [ofLE_cons, ih _ hdiv, Nat.mod_add_div]

lemma foldl_val_reverse : ∀ (l : List Nat) (a : Nat),
    (l.reverse).foldl (fun x d => 10 * x + d) a = a * 10 ^ l.length + ofLE l := by
  intro l
  induction l with
  | nil => intro a; simp [ofLE]
  | cons d t ih =>
    intro a
    simp only [List.reverse_cons, List.foldl_append, ih, List.foldl_cons,
      List.foldl_nil, ofLE_cons, List.length_cons]
    ring

lemma digitsValN_digitsMSB (n : Nat) : digitsValN (digitsMSB n) = n := by
  unfold digitsMSB
  split
  · next h => subst h; rfl
  · next h =>
    unfold digitsValN
    rw [foldl_val_reverse, ofLE_natDigitsAux n n le_rfl]
    simp

lemma digitsMSB_lt (n : Nat) : ∀ d ∈ digitsMSB n, d < 10 := by
  unfold digitsMSB
  split
  · intro d hd; simp at hd; omega
  · intro d hd
    rw [List.mem_reverse] at hd
    exact natDigitsAux_lt _ _ _ hd

lemma digitsMSB_ne (n : Nat) : digitsMSB n ≠ [] := by
  unfold digitsMSB
  split
  · simp
  · next h =>
    cases n with
    | zero => exact absurd rfl h
    | succ m => simp [natDigitsAux]

lemma foldl_digitVal_congr : ∀ (l : List Nat) (a : Nat), (∀ d ∈ l, d < 10) →
    l.foldl (fun x d => 10 * x + digitVal (digitChar d)) a =
      l.foldl (fun x d => 10 * x + d) a := by
  intro l
  induction l with
  | nil => intro a _; rfl
  | cons d t ih =>
    intro a h
    simp only [List.foldl_cons]
    rw [(digitChar_spec d (h d (by simp))).2.2.1]
    exact ih _ fun x hx => h x (by simp [hx])

lemma digitsValC_map_digitChar (l : List Nat) (h : ∀ d ∈ l, d < 10) :
    digitsValC (l.map digitChar) = digitsValN l := by
  unfold digitsValC digitsValN
  rw [List.foldl_map]
  exact foldl_digitVal_congr l 0 h

lemma map_digitVal_digitChar (l : List Nat) (h : ∀ d ∈ l, d < 10) :
    (l.map digitChar).map digitVal = l := by
  rw [List.map_map]
  have : ∀ d ∈ l, (digitVal ∘ digitChar) d = id d := by
    intro d hd
    exact (digitChar_spec d (h d hd)).2.2.1
  rw [List.map_congr_left this, List.map_id]

lemma natReprL_all_digit (n : Nat) : ∀ c ∈ natReprL n, c.isDigit = true := by
  intro c hc
  rw [natReprL, List.mem_map] at hc
  obtain ⟨d, hd, rfl⟩ := hc
  exact (digitChar_spec d (digitsMSB_lt n d hd)).1

lemma natReprL_ne (n : Nat) : natReprL n ≠ [] := by
  rw [natReprL]
  simp [digitsMSB_ne n]

lemma parseNatNoWs_dump (n : Nat) (rest : List Char)
    (hrest : ∀ c, rest.head? = some c → c.isDigit = false) :
    parseNatNoWs (natReprL n ++ rest) = some (n, rest) := by
  obtain ⟨ht, hd⟩ := takeWhile_exact (natReprL_all_digit n) hrest
  unfold parseNatNoWs
  simp only [ht, hd]
  rw [if_neg (by simp [List.isEmpty_iff, natReprL_ne n])]
  rw [natReprL, digitsValC_map_digitChar _ (digitsMSB_lt n), digitsValN_digitsMSB]




lemma natReprL_spec (n : Nat) : ∀ c ∈ natReprL n,
    c.isDigit = true ∧ c.isWhitespace = false ∧ ¬c = '-' ∧ ¬c = '"' ∧ ¬c = '.' := by
  intro c hc
  rw [natReprL, List.mem_map] at hc
  obtain ⟨d, hd, rfl⟩ := hc
  have := digitChar_spec d (digitsMSB_lt n d hd)
  exact ⟨this.1, this.2.1, this.2.2.2.1, this.2.2.2.2.1, this.2.2.2.2.2.1⟩

lemma skipWs_dump {ws rest : List Char}
    (hws : ∀ c ∈ ws, c.isWhitespace = true)
    (hrest : ∀ c, rest.head? = some c → c.isWhitespace = false) :
    skipWs (ws ++ rest) = rest := by
  unfold skipWs
  rw [dropWhile_append_all hws]
  exact (head_fail_stop hrest).2

lemma head_mem_append {l r : List Char} {c : Char} (hne : l ≠ [])
    (h : (l ++ r).head? = some c) : c ∈ l := by
  cases l with
  | nil => exact absurd rfl hne
  | cons c0 t =>
    simp only [List.cons_append, List.head?_cons, Option.some.injEq] at h
    subst h
    simp

lemma natRepr_append_head_digit (n : Nat) (r : List Char) :
    ∀ c, (natReprL n ++ r).head? = some c →
      c.isDigit = true ∧ c.isWhitespace = false ∧ ¬c = '-' := by
  intro c hc
  have hm := head_mem_append (natReprL_ne n) hc
  have := natReprL_spec n c hm
  exact ⟨this.1, this.2.1, this.2.2.1⟩

lemma intReprL_head_no_ws (i : Int) (rest : List Char) :
    ∀ c, (intReprL i ++ rest).head? = some c → c.isWhitespace = false := by
  intro c hc
  unfold intReprL at hc
  split at hc
  · simp only [List.cons_append, List.head?_cons, Option.some.injEq] at hc
    subst hc; decide
  · exact (natRepr_append_head_digit _ _ c hc).2.1

lemma parseIntL_dump (i : Int) (ws rest : List Char)
    (hws : ∀ c ∈ ws, c.isWhitespace = true)
    (hrest : ∀ c, rest.head? = some c → c.isDigit = false) :
    parseIntL (ws ++ (intReprL i ++ rest)) = some (i, rest) := by
  have hskip : skipWs (ws ++ (intReprL i ++ rest)) = intReprL i ++ rest :=
    skipWs_dump hws (intReprL_head_no_ws i rest)
  unfold parseIntL
  simp only [hskip]
  by_cases hi : i < 0
  · rw [intReprL, if_pos hi]
    simp only [List.cons_append, List.head?_cons, List.tail_cons, eq_self_iff_true,
      if_true]
    rw [parseNatNoWs_dump _ _ hrest]
    simp only [Option.map_some', Option.some.injEq, Prod.mk.injEq, eq_self_iff_true,
      and_true]
    omega
  · rw [intReprL, if_neg hi]
    rw [if_neg (by
      intro h
      have := (natRepr_append_head_digit i.natAbs rest '-' h).2.2
      exact this rfl)]
    rw [parseNatNoWs_dump _ _ hrest]
    simp only [Option.map_some', Option.some.injEq, Prod.mk.injEq, eq_self_iff_true,
      and_true]
    omega

lemma parseFracL_dump (fr : List Nat) (rest : List Char)
    (hne : fr ≠ []) (hlt : ∀ d ∈ fr, d < 10)
    (hrest : ∀ c, rest.head? = some c → c.isDigit = false) :
    parseFracL (fr.map digitChar ++ rest) = some (fr, rest) := by
  have hall : ∀ c ∈ fr.map digitChar, c.isDigit = true := by
    intro c hc
    rw [List.mem_map] at hc
    obtain ⟨d, hd, rfl⟩ := hc
    exact (digitChar_spec d (hlt d hd)).1
  obtain ⟨ht, hd⟩ := takeWhile_exact hall hrest
  unfold parseFracL
  simp only [ht, hd]
  rw [if_neg (by simp [List.isEmpty_iff, hne])]
  rw [map_digitVal_digitChar _ hlt]

lemma parseDecL_dump (d : Dec) (hWF : d.WF) (ws rest : List Char)
    (hws : ∀ c ∈ ws, c.isWhitespace = true)
    (hrest : ∀ c, rest.head? = some c → c.isDigit = false) :
    parseDecL (ws ++ (decReprL d ++ rest)) = some (d, rest) := by
  obtain ⟨ip, fr⟩ := d
  obtain ⟨hne, hlt⟩ := hWF
  have hshape : decReprL ⟨ip, fr⟩ ++ rest =
      natReprL ip ++ ('.' :: (fr.map digitChar ++ rest)) := by
    simp [decReprL, List.append_assoc]
  have hnat : parseNatL (ws ++ (decReprL ⟨ip, fr⟩ ++ rest)) =
      some (ip, '.' :: (fr.map digitChar ++ rest)) := by
    unfold parseNatL
    rw [hshape, skipWs_dump hws
      (fun c hc => (natRepr_append_head_digit ip _ c hc).2.1)]
    exact parseNatNoWs_dump ip _ (by
      intro c hc
      simp only [List.head?_cons, Option.some.injEq] at hc
      subst hc; decide)
  unfold parseDecL
  rw [hnat]
  simp only [Option.bind_eq_bind, Option.some_bind, List.head?_cons, List.tail_cons,
    if_pos rfl]
  rw [parseFracL_dump fr rest hne hlt hrest]
  simp only [Option.bind_eq_bind, Option.some_bind]
  rfl

lemma parseJStr_dump (s : String) (rest : List Char)
    (h : ∀ c ∈ s.data, ¬c = '"') :
    parseJStr (s.data ++ '"' :: rest) = some (s, rest) := by
  have hl : ∀ c ∈ s.data, (decide (¬c = '"')) = true := by
    intro c hc; simpa using h c hc
  have hr : ∀ c : Char, ('"' :: rest).head? = some c → (decide (¬c = '"')) = false := by
    intro c hc
    simp only [List.head?_cons, Option.some.injEq] at hc
    subst hc; simp
  obtain ⟨ht, hd⟩ := takeWhile_exact hl hr
  unfold parseJStr
  simp only [ht, hd, List.head?_cons, List.tail_cons]
  rw [if_pos trivial]
  rfl




lemma head_pred (c0 : Char) {l : List Char} {p : Char → Bool}
    (h0 : l.head? = some c0) (hp : p c0 = false) :
    ∀ c, l.head? = some c → p c = false := by
  intro c hc
  rw [h0] at hc
  simp only [Option.some.injEq] at hc
  rw [← hc]
  exact hp

lemma settings_roundtrip_core (fs : Int) (d : Dec) (h : d.WF) :
    parseSettingsL (dumpSettings ⟨fs, d⟩) = some ⟨fs, d⟩ := by
  have e1 : ∀ X : List Char, expectTok ['\x7b'] ("\x7b\n  \"font_size\": ".data ++ X) =
      some ("\n  \"font_size\": ".data ++ X) := fun _ => rfl
  have e2 : ∀ X : List Char, expectTok "\"font_size\"".data
      ("\n  \"font_size\": ".data ++ X) = some (": ".data ++ X) := fun _ => rfl
  have e3 : ∀ X : List Char, expectTok [':'] (": ".data ++ X) =
      some (" ".data ++ X) := fun _ => rfl
  have e5 : ∀ X : List Char, expectTok [','] (",\n  \"line_spacing\": ".data ++ X) =
      some ("\n  \"line_spacing\": ".data ++ X) := fun _ => rfl
  have e6 : ∀ X : List Char, expectTok "\"line_spacing\"".data
      ("\n  \"line_spacing\": ".data ++ X) = some (": ".data ++ X) := fun _ => rfl
  have e4 : parseIntL (" ".data ++ (intReprL fs ++
      (",\n  \"line_spacing\": ".data ++ (decReprL d ++ "\n\x7d".data)))) =
      some (fs, ",\n  \"line_spacing\": ".data ++ (decReprL d ++ "\n\x7d".data)) :=
    parseIntL_dump fs _ _ (by decide) (head_pred ',' rfl (by decide))
  have e8 : parseDecL (" ".data ++ (decReprL d ++ "\n\x7d".data)) =
      some (d, "\n\x7d".data) :=
    parseDecL_dump d h _ _ (by decide) (head_pred '\n' rfl (by decide))
  have e9 : expectTok ['\x7d'] "\n\x7d".data = some [] := rfl
  unfold parseSettingsL dumpSettings
  dsimp only
  simp only [List.append_assoc]
  rw [e1]
  simp only [Option.bind_eq_bind, Option.some_bind]
  rw [e2]
  simp only [Option.some_bind]
  rw [e3]
  simp only [Option.some_bind]
  rw [e4]
  simp only [Option.some_bind]
  rw [e5]
  simp only [Option.some_bind]
  rw [e6]
  simp only [Option.some_bind]
  rw [e3]
  simp only [Option.some_bind]
  rw [e8]
  simp only [Option.some_bind]
  rw [e9]
  simp only [Option.some_bind]
  rfl




lemma nil_isPre (l : List Char) : List.isPrefixOf ([] : List Char) l = true := by
  cases l <;> rfl

lemma cons_isPre (a : Char) (as : List Char) (b : Char) (l : List Char) :
    List.isPrefixOf (a :: as) (b :: l) = (a == b && List.isPrefixOf as l) := rfl

lemma expectTok_cons (c : Char) (pre X : List Char)
    (hpre : ∀ a ∈ pre, a.isWhitespace = true) (hc : c.isWhitespace = false) :
    expectTok [c] (pre ++ c :: X) = some X := by
  have hskip : skipWs (pre ++ c :: X) = c :: X :=
    skipWs_dump hpre (head_pred c rfl hc)
  unfold expectTok
  simp only [hskip, cons_isPre, nil_isPre, beq_self_eq_true, Bool.and_self, if_true,
    List.length_cons, List.length_nil, List.drop_succ_cons, List.drop_zero]

lemma parsePEntry_dump (k : String) (e : PEntry) (suffix : List Char)
    (hk : ∀ c ∈ k.data, ¬c = '"') (hts : ∀ c ∈ e.timestamp.data, ¬c = '"') :
    parsePEntry ('\n' :: (dumpEntry k e ++ suffix)) = some ((k, e), suffix) := by
  obtain ⟨c, ts⟩ := e
  have f3 : ∀ X : List Char, expectTok [':'] (": \x7b\n    \"chapter\": ".data ++ X) =
      some (" \x7b\n    \"chapter\": ".data ++ X) := fun _ => rfl
  have f4 : ∀ X : List Char, expectTok ['\x7b'] (" \x7b\n    \"chapter\": ".data ++ X) =
      some ("\n    \"chapter\": ".data ++ X) := fun _ => rfl
  have f5 : ∀ X : List Char, expectTok "\"chapter\"".data ("\n    \"chapter\": ".data ++ X) =
      some (": ".data ++ X) := fun _ => rfl
  have f6 : ∀ X : List Char, expectTok [':'] (": ".data ++ X) =
      some (" ".data ++ X) := fun _ => rfl
  have f8 : ∀ X : List Char, expectTok [','] (",\n    \"timestamp\": \"".data ++ X) =
      some ("\n    \"timestamp\": \"".data ++ X) := fun _ => rfl
  have f9 : ∀ X : List Char, expectTok "\"timestamp\"".data
      ("\n    \"timestamp\": \"".data ++ X) = some (": \"".data ++ X) := fun _ => rfl
  have f10 : ∀ X : List Char, expectTok [':'] (": \"".data ++ X) =
      some (" \"".data ++ X) := fun _ => rfl
  have f1 : ∀ X : List Char, expectTok ['"'] ('\n' :: ("  \"".data ++ X)) = some X := by
    intro X
    rw [show '\n' :: ("  \"".data ++ X) = ['\n', ' ', ' '] ++ ('"' :: X) from rfl]
    exact expectTok_cons '"' _ _ (by decide) (by decide)
  have f11 : ∀ X : List Char, expectTok ['"'] (" \"".data ++ X) = some X := by
    intro X
    rw [show (" \"".data ++ X : List Char) = [' '] ++ ('"' :: X) from rfl]
    exact expectTok_cons '"' _ _ (by decide) (by decide)
  have f13 : ∀ X : List Char, expectTok ['\x7d'] ("\n  \x7d".data ++ X) = some X := by
    intro X
    rw [show ("\n  \x7d".data ++ X : List Char) = ['\n', ' ', ' '] ++ ('\x7d' :: X) from rfl]
    exact expectTok_cons '\x7d' _ _ (by decide) (by decide)
  have f7 : parseIntL (" ".data ++ (intReprL c ++ (",\n    \"timestamp\": \"".data ++
      (ts.data ++ ("\"\n  \x7d".data ++ suffix))))) =
      some (c, ",\n    \"timestamp\": \"".data ++ (ts.data ++ ("\"\n  \x7d".data ++ suffix))) :=
    parseIntL_dump c _ _ (by decide) (head_pred ',' rfl (by decide))
  have f2 : parseJStr (k.data ++ ("\": \x7b\n    \"chapter\": ".data ++ (intReprL c ++
      (",\n    \"timestamp\": \"".data ++ (ts.data ++ ("\"\n  \x7d".data ++ suffix)))))) =
      some (k, ": \x7b\n    \"chapter\": ".data ++ (intReprL c ++
      (",\n    \"timestamp\": \"".data ++ (ts.data ++ ("\"\n  \x7d".data ++ suffix))))) := by
    rw [show ("\": \x7b\n    \"chapter\": ".data : List Char) =
      '"' :: ": \x7b\n    \"chapter\": ".data from rfl]
    rw [List.cons_append]
    exact parseJStr_dump k _ hk
  have f12 : parseJStr (ts.data ++ ("\"\n  \x7d".data ++ suffix)) =
      some (ts, "\n  \x7d".data ++ suffix) := by
    rw [show ("\"\n  \x7d".data : List Char) = '"' :: "\n  \x7d".data from rfl]
    rw [List.cons_append]
    exact parseJStr_dump ts _ hts
  unfold parsePEntry dumpEntry
  dsimp only
  simp only [List.append_assoc]
  rw [f1]
  simp only [Option.bind_eq_bind, Option.some_bind]
  rw [f2]
  simp only [Option.some_bind]
  rw [f3]
  simp only [Option.some_bind]
  rw [f4]
  simp only [Option.some_bind]
  rw [f5]
  simp only [Option.some_bind]
  rw [f6]
  simp only [Option.some_bind]
  rw [f7]
  simp only [Option.some_bind]
  rw [f8]
  simp only [Option.some_bind]
  rw [f9]
  simp only [Option.some_bind]
  rw [f10]
  simp only [Option.some_bind]
  rw [f11]
  simp only [Option.some_bind]
  rw [f12]
  simp only [Option.some_bind]
  rw [f13]
  simp only [Option.some_bind]
  rfl

lemma dumpEntry_length_pos (k : String) (e : PEntry) : 1 ≤ (dumpEntry k e).length := by
  simp only [dumpEntry, List.length_append, List.length_cons, List.length_nil]
  omega

lemma dumpEntries_length_ge : ∀ m : List (String × PEntry),
    m.length ≤ (dumpEntries m).length := by
  intro m
  induction m with
  | nil => simp [dumpEntries]
  | cons p t ih =>
    obtain ⟨k, e⟩ := p
    cases t with
    | nil =>
      show 1 ≤ (dumpEntry k e).length
      exact dumpEntry_length_pos k e
    | cons q t2 =>
      show (q :: t2).length + 1 ≤ (dumpEntry k e ++ ',' :: '\n' :: dumpEntries (q :: t2)).length
      have h1 := dumpEntry_length_pos k e
      simp only [List.length_append, List.length_cons]
      simp only [List.length_cons] at ih
      omega

lemma progressWF_head {k : String} {e : PEntry} {m : List (String × PEntry)}
    (h : ProgressWF ((k, e) :: m)) :
    (∀ c ∈ k.data, ¬c = '"') ∧ (∀ c ∈ e.timestamp.data, ¬c = '"') := by
  have := h (k, e) (by simp)
  exact ⟨fun c hc => (this.1 c hc).1, fun c hc => (this.2 c hc).1⟩

lemma progressWF_tail {p : String × PEntry} {m : List (String × PEntry)}
    (h : ProgressWF (p :: m)) : ProgressWF m :=
  fun q hq => h q (by simp [hq])

lemma parseEntriesAux_dump : ∀ (m : List (String × PEntry)) (k : String) (e : PEntry)
    (fuel : Nat), m.length ≤ fuel → ProgressWF ((k, e) :: m) →
    parseEntriesAux fuel ('\n' :: (dumpEntries ((k, e) :: m) ++ '\n' :: ['\x7d'])) =
      some ((k, e) :: m, []) := by
  intro m
  induction m with
  | nil =>
    intro k e fuel _ hWF
    obtain ⟨hk, hts⟩ := progressWF_head hWF
    rw [parseEntriesAux]
    rw [show dumpEntries [(k, e)] = dumpEntry k e from rfl]
    rw [parsePEntry_dump k e _ hk hts]
    simp only [Option.bind_eq_bind, Option.some_bind]
    rfl
  | cons p m' ih =>
    obtain ⟨k', e'⟩ := p
    intro k e fuel hf hWF
    obtain ⟨hk, hts⟩ := progressWF_head hWF
    rw [parseEntriesAux]
    rw [show dumpEntries ((k, e) :: (k', e') :: m') =
      dumpEntry k e ++ ',' :: '\n' :: dumpEntries ((k', e') :: m') from rfl]
    rw [List.append_assoc]
    simp only [List.cons_append]
    rw [parsePEntry_dump k e _ hk hts]
    simp only [Option.bind_eq_bind, Option.some_bind]
    have hlen : m'.length + 1 ≤ fuel := by simpa using hf
    cases fuel with
    | zero => omega
    | succ f =>
      have hstep : skipWs (',' :: '\n' :: (dumpEntries ((k', e') :: m') ++ '\n' :: ['\x7d'])) =
          ',' :: '\n' :: (dumpEntries ((k', e') :: m') ++ '\n' :: ['\x7d']) := rfl
      rw [hstep]
      simp only [List.head?_cons, eq_self_iff_true, if_true, List.tail_cons]
      rw [ih k' e' f (by omega) (progressWF_tail hWF)]
      simp only [Option.bind_eq_bind, Option.some_bind]
      rfl

lemma dumpEntries_cons_shape (k : String) (e : PEntry) (m' : List (String × PEntry)) :
    ∃ T : List Char, dumpEntries ((k, e) :: m') = dumpEntry k e ++ T := by
  cases m' with
  | nil => exact ⟨[], by simp [dumpEntries]⟩
  | cons q t => exact ⟨',' :: '\n' :: dumpEntries (q :: t), rfl⟩

lemma parseProgressL_dump (m : List (String × PEntry)) (hWF : ProgressWF m) :
    parseProgressL (dumpProgress m) = some m := by
  cases m with
  | nil => rfl
  | cons p m'
  =>
    obtain ⟨k, e⟩ := p
    have hcond : (skipWs ('\n' :: (dumpEntries ((k, e) :: m') ++ '\n' :: ['\x7d']))).head? =
        some '"' := by
      obtain ⟨T, hT⟩ := dumpEntries_cons_shape k e m'
      rw [hT]
      rw [List.append_assoc]
      simp only [dumpEntry, List.append_assoc, List.cons_append]
      rfl
    have hfuel : m'.length ≤ ('\n' :: (dumpEntries ((k, e) :: m') ++ '\n' :: ['\x7d'])).length := by
      have h1 := dumpEntries_length_ge ((k, e) :: m')
      simp only [List.length_cons] at h1
      simp only [List.length_cons, List.length_append]
      omega
    unfold parseProgressL
    rw [show dumpProgress ((k, e) :: m') =
      '\x7b' :: '\n' :: (dumpEntries ((k, e) :: m') ++ '\n' :: ['\x7d']) from rfl]
    rw [show expectTok ['\x7b'] ('\x7b' :: '\n' ::
        (dumpEntries ((k, e) :: m') ++ '\n' :: ['\x7d'])) =
      some ('\n' :: (dumpEntries ((k, e) :: m') ++ '\n' :: ['\x7d'])) from
      expectTok_cons '\x7b' [] _ (by simp) (by decide)]
    simp only [Option.bind_eq_bind, Option.some_bind]
    rw [hcond]
    rw [if_neg (by decide)]
    rw [parseEntriesAux_dump m' k e _ hfuel hWF]
    simp only [Option.bind_eq_bind, Option.some_bind]
    rfl


end NovelReader

/-! ## Claim theorems -/

namespace NovelReader


lemma alookup_map_set (m : List (String × PEntry)) (k : String) (v : PEntry)
    (h : m.any (fun p => p.1 = k) = true) :
    alookup (m.map fun p => if p.1 = k then (k, v) else p) k = some v := by
  induction m with
  | nil => simp at h
  | cons p t ih =>
    obtain ⟨k0, v0⟩ := p
    simp only [List.map_cons]
    by_cases hk : k0 = k
    · subst hk
      rw [if_pos rfl]
      show alookup ((k0, v) :: _) k0 = some v
      unfold alookup
      rw [if_pos rfl]
    · rw [if_neg hk]
      show alookup ((k0, v0) :: _) k = some v
      unfold alookup
      rw [if_neg hk]
      apply ih
      rw [List.any_cons, Bool.or_eq_true_iff] at h
      rcases h with h1 | h1
      · exact absurd (of_decide_eq_true h1) hk
      · exact h1

lemma alookup_append_not_found (m : List (String × PEntry)) (k : String) (v : PEntry)
    (h : m.any (fun p => p.1 = k) = false) :
    alookup (m ++ [(k, v)]) k = some v := by
  induction m with
  | nil =>
    show alookup [(k, v)] k = some v
    unfold alookup
    rw [if_pos rfl]
  | cons p t ih =>
    obtain ⟨k0, v0⟩ := p
    rw [List.any_cons, Bool.or_eq_false_iff] at h
    have hk : ¬k0 = k := by simpa using h.1
    show alookup ((k0, v0) :: (t ++ [(k, v)])) k = some v
    unfold alookup
    rw [if_neg hk]
    exact ih h.2

lemma alookup_map_other (m : List (String × PEntry)) (k k' : String) (v : PEntry)
    (hne : ¬k' = k) :
    alookup (m.map fun p => if p.1 = k then (k, v) else p) k' = alookup m k' := by
  induction m with
  | nil => rfl
  | cons p t ih =>
    obtain ⟨k0, v0⟩ := p
    simp only [List.map_cons]
    by_cases hk : k0 = k
    · subst hk
      rw [if_pos rfl]
      show alookup ((k0, v) :: _) k' = alookup ((k0, v0) :: t) k'
      unfold alookup
      rw [if_neg (fun hh => hne hh.symm), if_neg (fun hh => hne hh.symm)]
      exact ih
    · rw [if_neg hk]
      show alookup ((k0, v0) :: _) k' = alookup ((k0, v0) :: t) k'
      unfold alookup
      by_cases hk' : k0 = k'
      · rw [if_pos hk', if_pos hk']
      · rw [if_neg hk', if_neg hk']
        exact ih

lemma alookup_append_other (m : List (String × PEntry)) (k k' : String) (v : PEntry)
    (hne : ¬k' = k) : alookup (m ++ [(k, v)]) k' = alookup m k' := by
  induction m with
  | nil =>
    show alookup [(k, v)] k' = none
    unfold alookup
    rw [if_neg (fun hh => hne hh.symm)]
    rfl
  | cons p t ih =>
    obtain ⟨k0, v0⟩ := p
    show alookup ((k0, v0) :: (t ++ [(k, v)])) k' = alookup ((k0, v0) :: t) k'
    unfold alookup
    by_cases hk' : k0 = k'
    · rw [if_pos hk', if_pos hk']
    · rw [if_neg hk', if_neg hk']
      exact ih

lemma alookup_dictSet_self (m : List (String × PEntry)) (k : String) (v : PEntry) :
    alookup (dictSet m k v) k = some v := by
  unfold dictSet
  cases hb : m.any (fun p => p.1 = k) with
  | true =>
    rw [if_pos rfl]
    exact alookup_map_set m k v hb
  | false =>
    rw [if_neg Bool.false_ne_true]
    exact alookup_append_not_found m k v hb

lemma alookup_dictSet_other (m : List (String × PEntry)) (k k' : String) (v : PEntry)
    (hne : ¬k' = k) : alookup (dictSet m k v) k' = alookup m k' := by
  unfold dictSet
  cases hb : m.any (fun p => p.1 = k) with
  | true =>
    rw [if_pos rfl]
    exact alookup_map_other m k k' v hne
  | false =>
    rw [if_neg Bool.false_ne_true]
    exact alookup_append_other m k k' v hne

/-- Claim C6: saving any settings value with fontSize in [10, 20] and lineSpacing
in [1.0, 2.0] and loading the written document back yields an equal value. -/
theorem C6_settings_roundtrip (s : SettingsV)
    (hfs : 10 ≤ s.font_size ∧ s.font_size ≤ 20)
    (hls : s.line_spacing.WF ∧ 1 ≤ s.line_spacing.val ∧ s.line_spacing.val ≤ 2) :
    load_settings (some (save_settings s)) = some s := by
  obtain ⟨fs, d⟩ := s
  show parseSettingsL (dumpSettings ⟨fs, d⟩) = some ⟨fs, d⟩
  exact settings_roundtrip_core fs d hls.1

theorem C6_witness :
    load_settings (some (save_settings ⟨12, ⟨1, [5]⟩⟩)) = some ⟨12, ⟨1, [5]⟩⟩ :=
  C6_settings_roundtrip ⟨12, ⟨1, [5]⟩⟩ (by decide)
    ⟨by decide, by norm_num [Dec.val, digitsValN], by norm_num [Dec.val, digitsValN]⟩

/-- Claim C7: the settings and progress loads are total: a missing document or a
failed parse yields the empty/default value, and a successful parse yields the
stored value; no other outcome exists. -/
theorem C7_loads_never_raise (doc : Option String) :
    (doc = none → load_settings doc = none ∧ load_reading_progress doc = []) ∧
    (∀ d, doc = some d → parseSettingsL d.data = none → load_settings doc = none) ∧
    (∀ d v, doc = some d → parseSettingsL d.data = some v → load_settings doc = some v) ∧
    (∀ d, doc = some d → parseProgressL d.data = none → load_reading_progress doc = []) ∧
    (∀ d m, doc = some d → parseProgressL d.data = some m →
      load_reading_progress doc = m) := by
  refine ⟨?_, ?_, ?_, ?_, ?_⟩
  · rintro rfl; exact ⟨rfl, rfl⟩
  · rintro d rfl h; simp [load_settings, h]
  · rintro d v rfl h; simp [load_settings, h]
  · rintro d rfl h; simp [load_reading_progress, h]
  · rintro d m rfl h; simp [load_reading_progress, h]

theorem C7_witness :
    load_settings none = none ∧ load_reading_progress none = [] ∧
    load_settings (some "novel") = none ∧ load_reading_progress (some "novel") = [] := by
  refine ⟨((C7_loads_never_raise none).1 rfl).1, ((C7_loads_never_raise none).1 rfl).2,
    (C7_loads_never_raise (some "novel")).2.1 "novel" rfl (by decide),
    (C7_loads_never_raise (some "novel")).2.2.2.1 "novel" rfl (by decide)⟩

/-- Claim C8: progress save rewrites the whole mapping: after loading a mapping
holding novel tX, saving progress for a different novel tY keeps the entry of tX
unchanged, adds the entry of tY, and modifies no other entry. -/
theorem C8_progress_save_frame (doc : String) (m : List (String × PEntry))
    (_hload : load_reading_progress (some doc) = m)
    (tX tY : String) (eX : PEntry) (hX : alookup m tX = some eX)
    (hne : ¬tX = tY) (c : Int) (ts : String)
    (hWF : ProgressWF (dictSet m tY ⟨c, ts⟩)) :
    load_reading_progress (some (save_reading_progress tY c ts m).2) =
        (save_reading_progress tY c ts m).1 ∧
    alookup (save_reading_progress tY c ts m).1 tX = some eX ∧
    alookup (save_reading_progress tY c ts m).1 tY = some ⟨c, ts⟩ ∧
    (∀ k, ¬k = tY → alookup (save_reading_progress tY c ts m).1 k = alookup m k) := by
  refine ⟨?_, ?_, ?_, ?_⟩
  · show (parseProgressL ((dumpProgress (dictSet m tY ⟨c, ts⟩)).asString).data).getD [] =
      dictSet m tY ⟨c, ts⟩
    rw [show ((dumpProgress (dictSet m tY ⟨c, ts⟩)).asString).data =
      dumpProgress (dictSet m tY ⟨c, ts⟩) from rfl]
    rw [parseProgressL_dump _ hWF]
    rfl
  · show alookup (dictSet m tY ⟨c, ts⟩) tX = some eX
    rw [alookup_dictSet_other m tY tX _ hne]
    exact hX
  · exact alookup_dictSet_self m tY ⟨c, ts⟩
  · intro k hk
    exact alookup_dictSet_other m tY k _ hk

theorem C8_witness :
    alookup (save_reading_progress "Y" 0 "u" [("X", ⟨2, "t"⟩)]).1 "X" = some ⟨2, "t"⟩ ∧
    alookup (save_reading_progress "Y" 0 "u" [("X", ⟨2, "t"⟩)]).1 "Y" = some ⟨0, "u"⟩ ∧
    load_reading_progress (some (save_reading_progress "Y" 0 "u" [("X", ⟨2, "t"⟩)]).2) =
      (save_reading_progress "Y" 0 "u" [("X", ⟨2, "t"⟩)]).1 := by
  have h := C8_progress_save_frame ((dumpProgress [("X", ⟨2, "t"⟩)]).asString)
    [("X", ⟨2, "t"⟩)] (by
      show (parseProgressL ((dumpProgress [("X", ⟨2, "t"⟩)]).asString).data).getD [] =
        [("X", ⟨2, "t"⟩)]
      rw [show ((dumpProgress [("X", ⟨2, "t"⟩)]).asString).data =
        dumpProgress [("X", ⟨2, "t"⟩)] from rfl]
      rw [parseProgressL_dump _ (by decide)]
      rfl)
    "X" "Y" ⟨2, "t"⟩ (by decide) (by decide) 0 "u" (by decide)
  exact ⟨h.2.1, h.2.2.1, h.1⟩




/-- Claim C5: with a novel of n chapters selected and current index in
[0, n-1], "previous" at index 0 and "next" at the last index are no-ops,
interior moves change the index by exactly one, and the index never
leaves [0, n-1]. -/
theorem C5_navigation_clamped (chs : List Chapter) (i : Int)
    (h0 : 0 ≤ i) (h1 : i ≤ (chs.length : Int) - 1) :
    (i = 0 → prev_chapter ⟨some chs, i⟩ = ⟨some chs, i⟩) ∧
    (i = (chs.length : Int) - 1 → next_chapter ⟨some chs, i⟩ = ⟨some chs, i⟩) ∧
    (0 < i → prev_chapter ⟨some chs, i⟩ = ⟨some chs, i - 1⟩) ∧
    (i < (chs.length : Int) - 1 → next_chapter ⟨some chs, i⟩ = ⟨some chs, i + 1⟩) ∧
    (0 ≤ (prev_chapter ⟨some chs, i⟩).current ∧
      (prev_chapter ⟨some chs, i⟩).current ≤ (chs.length : Int) - 1) ∧
    (0 ≤ (next_chapter ⟨some chs, i⟩).current ∧
      (next_chapter ⟨some chs, i⟩).current ≤ (chs.length : Int) - 1) := by
  have hprev : prev_chapter ⟨some chs, i⟩ =
      if 0 < i then ⟨some chs, i - 1⟩ else ⟨some chs, i⟩ := by
    unfold prev_chapter load_chapter
    dsimp only
    by_cases hp : 0 < i
    · rw [if_pos hp, if_pos hp, if_neg (by omega)]
    · rw [if_neg hp, if_neg hp]
  have hnext : next_chapter ⟨some chs, i⟩ =
      if i < (chs.length : Int) - 1 then ⟨some chs, i + 1⟩ else ⟨some chs, i⟩ := by
    unfold next_chapter load_chapter
    dsimp only
    by_cases hp : i < (chs.length : Int) - 1
    · rw [if_pos hp, if_pos hp, if_neg (by omega)]
    · rw [if_neg hp, if_neg hp]
  refine ⟨?_, ?_, ?_, ?_, ?_, ?_⟩
  · intro hz; rw [hprev, if_neg (by omega)]
  · intro hl; rw [hnext, if_neg (by omega)]
  · intro hp; rw [hprev, if_pos hp]
  · intro hp; rw [hnext, if_pos hp]
  · rw [hprev]
    by_cases hp : 0 < i
    · rw [if_pos hp]; dsimp only; exact ⟨by omega, by omega⟩
    · rw [if_neg hp]; dsimp only; exact ⟨h0, h1⟩
  · rw [hnext]
    by_cases hp : i < (chs.length : Int) - 1
    · rw [if_pos hp]; dsimp only; exact ⟨by omega, by omega⟩
    · rw [if_neg hp]; dsimp only; exact ⟨h0, h1⟩

theorem C5_witness :
    prev_chapter ⟨some [⟨"a", "x", 1⟩, ⟨"b", "y", 2⟩, ⟨"c", "z", 3⟩], 1⟩ =
      ⟨some [⟨"a", "x", 1⟩, ⟨"b", "y", 2⟩, ⟨"c", "z", 3⟩], 1 - 1⟩ ∧
    next_chapter ⟨some [⟨"a", "x", 1⟩, ⟨"b", "y", 2⟩, ⟨"c", "z", 3⟩], 1⟩ =
      ⟨some [⟨"a", "x", 1⟩, ⟨"b", "y", 2⟩, ⟨"c", "z", 3⟩], 1 + 1⟩ := by
  have h := C5_navigation_clamped [⟨"a", "x", 1⟩, ⟨"b", "y", 2⟩, ⟨"c", "z", 3⟩] 1
    (by decide) (by decide)
  exact ⟨h.2.2.1 (by decide), h.2.2.2.1 (by decide)⟩

/-- Claim C9: decoding tries utf-8 first, falls back to gbk, yields no result
when both fail, and a file with no result is skipped by the scan, which
continues with the remaining files. -/
theorem C9_decode_fallback :
    (∀ f : NovelFile, f.utf8 = none → f.gbk = none → parse_novel_file f = none) ∧
    (∀ (f : NovelFile) (c : String), f.utf8 = some c →
      parse_novel_file f = some (parseNovel c)) ∧
    (∀ (f : NovelFile) (c : String), f.utf8 = none → f.gbk = some c →
      parse_novel_file f = some (parseNovel c)) ∧
    (∀ (pre post : List (String × NovelFile)) (name : String) (f : NovelFile),
      parse_novel_file f = none →
      load_novels (pre ++ (name, f) :: post) = load_novels (pre ++ post)) := by
  refine ⟨?_, ?_, ?_, ?_⟩
  · intro f h1 h2
    unfold parse_novel_file
    rw [h1, h2]
  · intro f c h1
    unfold parse_novel_file
    rw [h1]
  · intro f c h1 h2
    unfold parse_novel_file
    rw [h1, h2]
  · intro pre post name f h
    unfold load_novels
    rw [List.foldl_append, List.foldl_append, List.foldl_cons]
    congr 1
    dsimp only
    rw [h]

theorem C9_witness :
    parse_novel_file ⟨none, none⟩ = none ∧
    load_novels [("a", ⟨none, none⟩), ("b", ⟨some "t", none⟩)] =
      load_novels [("b", ⟨some "t", none⟩)] := by
  refine ⟨C9_decode_fallback.1 ⟨none, none⟩ rfl rfl, ?_⟩
  have h := C9_decode_fallback.2.2.2 [] [("b", ⟨some "t", none⟩)] "a" ⟨none, none⟩
    (C9_decode_fallback.1 ⟨none, none⟩ rfl rfl)
  simpa using h




lemma foldl_chapStep_skip (pre : List (List Char))
    (h : ∀ l ∈ pre, matchChapterL (trimL l) = none) :
    pre.foldl chapStep ⟨[], none⟩ = ⟨[], none⟩ := by
  induction pre with
  | nil => rfl
  | cons l t ih =>
    rw [List.foldl_cons]
    rw [show chapStep ⟨[], none⟩ l = ⟨[], none⟩ from by
      unfold chapStep
      rw [h l (by simp)]]
    exact ih fun x hx => h x (by simp [hx])

/-- Claim C4: if no line of the text matches the heading pattern after
trimming, the parse yields an empty chapter list; more generally, any block
of non-matching lines before the rest of the input contributes nothing to
the chapter list (lines before the first heading are discarded). -/
theorem C4_no_heading_no_chapters :
    (∀ content : String,
      (∀ l ∈ splitNl content.data, matchChapterL (trimL l) = none) →
      (parseNovel content).chapters = []) ∧
    (∀ pre rest : List (List Char), (∀ l ∈ pre, matchChapterL (trimL l) = none) →
      parseChapters (pre ++ rest) = parseChapters rest) := by
  have hmain : ∀ pre rest : List (List Char),
      (∀ l ∈ pre, matchChapterL (trimL l) = none) →
      parseChapters (pre ++ rest) = parseChapters rest := by
    intro pre rest h
    unfold parseChapters
    rw [List.foldl_append, foldl_chapStep_skip pre h]
  refine ⟨?_, hmain⟩
  intro content h
  show parseChapters (splitNl content.data) = []
  have h2 := hmain (splitNl content.data) [] h
  rw [List.append_nil] at h2
  rw [h2]
  rfl

theorem C4_witness : (parseNovel "Title\nHello\nWorld").chapters = [] :=
  C4_no_heading_no_chapters.1 "Title\nHello\nWorld" (by decide)

lemma dropWhile_head_not (p : Char → Bool) :
    ∀ (l : List Char) (c : Char), (l.dropWhile p).head? = some c → p c = false := by
  intro l
  induction l with
  | nil => intro c hc; simp at hc
  | cons a t ih =>
    intro c hc
    rw [List.dropWhile_cons] at hc
    by_cases hp : p a = true
    · rw [if_pos hp] at hc
      exact ih c hc
    · rw [if_neg hp] at hc
      simp only [List.head?_cons, Option.some.injEq] at hc
      simp only [Bool.not_eq_true] at hp
      rw [← hc]
      exact hp

lemma trimmed_last_not_ws {line : List Char} (h : trimL line = line) :
    ∀ c, line.reverse.head? = some c → c.isWhitespace = false := by
  intro c hc
  have h2 : line.reverse =
      List.dropWhile Char.isWhitespace
        ((List.dropWhile Char.isWhitespace line).reverse) := by
    conv_lhs => rw [← h]
    show (trimL line).reverse = _
    unfold trimL
    rw [List.reverse_reverse]
  rw [h2] at hc
  exact dropWhile_head_not _ _ c hc

/-- Claim C10: a trimmed line of the form 第 digits 章 text with non-empty
text opens a new chapter with the parsed number even with no whitespace
after 章, while a trimmed line of the bare form 第 digits 章 matches no
heading and is treated as ordinary content. -/
theorem C10_heading_text_required :
    (∀ (ds t line : List Char), line = '第' :: (ds ++ '章' :: t) →
      trimL line = line → ds ≠ [] → (∀ c ∈ ds, c.isDigit = true) → t ≠ [] →
      matchChapterL line = some (digitsValC ds) ∧
      ∀ acc : ChapterAcc, chapStep acc line =
        ⟨acc.closed ++ acc.current.toList, some ⟨line.asString, "", digitsValC ds⟩⟩) ∧
    (∀ (ds line : List Char), line = '第' :: (ds ++ ['章']) →
      trimL line = line → ds ≠ [] → (∀ c ∈ ds, c.isDigit = true) →
      matchChapterL line = none ∧
      (∀ (acc : ChapterAcc) (ch : Chapter), acc.current = some ch →
        chapStep acc line =
          ⟨acc.closed, some { ch with content := ch.content ++ line.asString ++ "\n" }⟩) ∧
      (∀ acc : ChapterAcc, acc.current = none → chapStep acc line = acc)) := by
  constructor
  · intro ds t line hline htrim hne hds ht
    subst hline
    have hbody : ¬(List.dropWhile Char.isWhitespace t).isEmpty = true := by
      rcases htr : t.reverse with _ | ⟨c, r⟩
      · exact absurd (by simpa using htr) ht
      · have hlast : ('第' :: (ds ++ '章' :: t)).reverse.head? = some c := by
          rw [List.reverse_cons, List.reverse_append, List.reverse_cons, htr]
          simp
        have hcws := trimmed_last_not_ws htrim c hlast
        have hcmem : c ∈ t := List.mem_reverse.mp (by rw [htr]; simp)
        intro hemp
        rw [List.isEmpty_iff, List.dropWhile_eq_nil_iff] at hemp
        have := hemp c hcmem
        rw [hcws] at this
        exact Bool.false_ne_true this
    have hmatch : matchChapterL ('第' :: (ds ++ '章' :: t)) = some (digitsValC ds) := by
      unfold matchChapterL
      obtain ⟨htw, hdw⟩ := @takeWhile_exact Char.isDigit ds ('章' :: t) hds
        (head_pred '章' rfl (by decide))
      simp only [List.tail_cons, htw, hdw, List.head?_cons, Option.some.injEq,
        eq_self_iff_true, if_true]
      rw [if_neg (by simp [List.isEmpty_iff, hne])]
      rw [if_neg hbody]
    refine ⟨hmatch, ?_⟩
    intro acc
    unfold chapStep
    rw [htrim, hmatch]
  · intro ds line hline htrim hne hds
    subst hline
    have hmatch : matchChapterL ('第' :: (ds ++ ['章'])) = none := by
      unfold matchChapterL
      obtain ⟨htw, hdw⟩ := @takeWhile_exact Char.isDigit ds ['章'] hds
        (head_pred '章' rfl (by decide))
      simp only [List.tail_cons, htw, hdw, List.head?_cons, Option.some.injEq,
        eq_self_iff_true, if_true, List.isEmpty_nil, List.dropWhile_nil]
      rw [if_neg (by simp [List.isEmpty_iff, hne])]
    refine ⟨hmatch, ?_, ?_⟩
    · intro acc ch hcur
      unfold chapStep
      rw [htrim, hmatch, hcur]
    · intro acc hcur
      unfold chapStep
      rw [htrim, hmatch, hcur]

theorem C10_witness :
    matchChapterL ('第' :: (['1'] ++ '章' :: ['X'])) = some (digitsValC ['1']) ∧
    digitsValC ['1'] = 1 ∧
    matchChapterL ('第' :: (['1'] ++ ['章'])) = none := by
  refine ⟨(C10_heading_text_required.1 ['1'] ['X'] _ rfl (by decide) (by decide)
      (by decide) (by decide)).1,
    by decide,
    (C10_heading_text_required.2 ['1'] _ rfl (by decide) (by decide) (by decide)).1⟩

lemma findAuthor_eq_find (ls : List (List Char)) :
    findAuthor ls = (match ls.find? (fun l => authorLabel.isPrefixOf l) with
      | some l => trimL (replaceAll authorLabel l)
      | none => []) := by
  induction ls with
  | nil => rfl
  | cons l t ih =>
    unfold findAuthor
    by_cases hp : authorLabel.isPrefixOf l = true
    · rw [if_pos hp, List.find?_cons_of_pos _ hp]
    · rw [if_neg hp, List.find?_cons_of_neg _ (by simpa using hp)]
      exact ih

/-- Claim C2 (amended): the author is taken from the first line among the
first 10 lines that starts with the label 作者：, with every occurrence of
the label removed (Python str.replace) and the remainder trimmed; with no
such line the author is empty. -/
theorem C2_author_replace_all_amended (content : String) :
    (parseNovel content).author =
      (match ((splitNl content.data).take 10).find?
          (fun l => authorLabel.isPrefixOf l) with
       | some l => (trimL (replaceAll authorLabel l)).asString
       | none => "") := by
  show (findAuthor ((splitNl content.data).take 10)).asString = _
  rw [findAuthor_eq_find]
  cases ((splitNl content.data).take 10).find? (fun l => authorLabel.isPrefixOf l) with
  | none => rfl
  | some l => rfl

theorem C2_counterexample :
    (parseNovel "T\n作者：作者：Alice").author = "Alice" ∧
    ¬(parseNovel "T\n作者：作者：Alice").author = "作者：Alice" := by decide

lemma splitNl_ne (cs : List Char) : splitNl cs ≠ [] := by
  induction cs with
  | nil => simp [splitNl]
  | cons c t ih =>
    unfold splitNl
    by_cases hc : c = '\n'
    · rw [if_pos hc]; simp
    · rw [if_neg hc]
      cases hs : splitNl t with
      | nil => exact absurd hs ih
      | cons l ls => simp

/-- Claim C3 (amended): the title is the first line of the split text; the
split always yields at least one line, so for the empty text the title is
the empty string and the 未知标题 placeholder is unreachable. -/
theorem C3_title_first_line_amended (content : String) :
    (∃ l rest, splitNl content.data = l :: rest ∧
      (parseNovel content).title = l.asString) ∧
    (parseNovel "").title = "" := by
  constructor
  · cases hs : splitNl content.data with
    | nil => exact absurd hs (splitNl_ne content.data)
    | cons l rest =>
      refine ⟨l, rest, rfl, ?_⟩
      show (match splitNl content.data with
        | [] => "未知标题"
        | l :: _ => l.asString) = l.asString
      rw [hs]
  · rfl

theorem C3_counterexample :
    (parseNovel "").title = "" ∧ ¬(parseNovel "").title = "未知标题" := by decide

/-- Claim C1 (amended): parsing the scenario text yields title Title, author
Alice and the two chapters in order with numbers 1 and 2; the first
chapter's content is Hello plus a newline, and the second chapter's content
is World plus two newlines, because the final empty line produced by the
file's trailing newline is appended to the still-open last chapter. -/
theorem C1_scenario_amended :
    parseNovel "Title\n作者：Alice\n第1章 开端\nHello\n第2章 转折\nWorld\n" =
      { title := "Title", author := "Alice",
        chapters := [⟨"第1章 开端", "Hello\n", 1⟩, ⟨"第2章 转折", "World\n\n", 2⟩],
        content := "Title\n作者：Alice\n第1章 开端\nHello\n第2章 转折\nWorld\n" } := by
  decide

theorem C1_counterexample :
    (parseNovel "Title\n作者：Alice\n第1章 开端\nHello\n第2章 转折\nWorld\n").chapters.map
      Chapter.content = ["Hello\n", "World\n\n"] ∧
    ¬(["Hello\n", "World\n\n"] = ["Hello\n", "World\n"]) := by decide


end NovelReader
